import Mathlib

/-!
Shallow embedding of the Swarm repository (src/swarm) for verification of the
frozen claims.  The definitions translate the Python source:

* `voter.py`    — action vocabulary, `_parse_action`, `_tally_votes`, `vote`
* `selector.py` — `_get_candidates`, `select_for_task`
* `hardware.py` — `can_fit_model`
* `uninstaller.py` — `_should_remove`, `cleanup_unused`, `free_space_for`
* `registry.py` — `get_least_used`
* `orchestrator.py` — `_run_loop` with its forced-workflow rules

External effects (ollama calls, subprocess runs, download/uninstall outcomes,
disk and RAM probes) are passed in as explicit oracle parameters; Python
floats are modelled as exact rationals; Python strings as `String` or
`List Char` where character-level operations (lower/strip/substring) matter.
-/

namespace Swarm

/-- The closed action vocabulary of `voter.py` `_parse_action` (in its fixed
source order) and of the orchestrator's action strings. -/
inductive Action where
  | plan_skill
  | write_skill
  | test_skill
  | analyze_results
  | complete
  | failed
  | direct_answer
  | retry_plan
deriving DecidableEq, Repr

/-- The `actions` list of `_parse_action` (voter.py lines 111-120), in source
order. -/
def actionVocab : List Action :=
  [.plan_skill, .write_skill, .test_skill, .analyze_results, .complete,
   .failed, .direct_answer, .retry_plan]

/-- The literal name of an action, as the Python string. -/
def actionStr : Action → List Char
  | .plan_skill => "plan_skill".toList
  | .write_skill => "write_skill".toList
  | .test_skill => "test_skill".toList
  | .analyze_results => "analyze_results".toList
  | .complete => "complete".toList
  | .failed => "failed".toList
  | .direct_answer => "direct_answer".toList
  | .retry_plan => "retry_plan".toList

/-- `action.replace("_", " ")` from voter.py line 123. -/
def actionPhrase (a : Action) : List Char :=
  (actionStr a).map (fun c => if c = '_' then ' ' else c)

/-- Python `str.lower()` (ASCII-faithful). -/
def pyLower (s : List Char) : List Char := s.map Char.toLower

/-- Python `str.strip()`: drop whitespace from both ends. -/
def pyStrip (s : List Char) : List Char :=
  ((s.dropWhile Char.isWhitespace).reverse.dropWhile Char.isWhitespace).reverse

/-- `_parse_action` (voter.py lines 107-126): lowercase and strip the
response, then return the first vocabulary action whose spaced or underscored
name is a substring; default `plan_skill`. -/
def parse_action (response : List Char) : Action :=
  let r := pyStrip (pyLower response)
  (actionVocab.find? (fun a =>
    decide (actionPhrase a <:+: r) ||
    decide (actionStr a <:+: r))).getD .plan_skill

/-- First-occurrence index of `a` in `l` (length of `l` if absent); this is
the insertion order of keys into a Python `Counter` built from `l`. -/
def firstIdx {α : Type} [DecidableEq α] : List α → α → Nat
  | [], _ => 0
  | x :: t, a => if x = a then 0 else firstIdx t a + 1

/-- The scan underlying `Counter(actions).most_common(1)[0]`: keep the current
best and replace it only on a strictly larger count, so ties go to the
earliest-inserted (first-occurring) key, exactly as CPython's
`heapq.nlargest`/`max` does. -/
def pickBest (l : List Action) : List Action → Action → Action
  | [], b => b
  | x :: t, b => pickBest l t (if l.count b < l.count x then x else b)

/-- `Counter(actions).most_common(1)[0][0]` for a non-empty `actions` list
(the `[]` branch is unreachable in `_tally_votes`). -/
def most_common (l : List Action) : Action :=
  match l with
  | [] => .plan_skill
  | h :: t => pickBest l t h

/-- The dictionary returned by `vote`/`_tally_votes` (voter.py): the vote
histogram is modelled as a total count function (absent keys count 0). -/
structure VoteResult where
  action : Action
  confidence : ℚ
  votes : Action → Nat
  responses : List (List Char)

/-- `_tally_votes` (voter.py lines 81-105) applied to the collected raw
response texts (the `model` field of each response dict is never read). -/
def tally_votes (responses : List (List Char)) : VoteResult :=
  let actions := responses.map parse_action
  if actions.isEmpty then
    ⟨.plan_skill, 0, fun _ => 0, responses⟩
  else
    let winner := most_common actions
    ⟨winner, (actions.count winner : ℚ) / (actions.length : ℚ),
     fun a => actions.count a, responses⟩

/-- `vote` (voter.py lines 17-67) after response collection: `responses` is
the list of usable response texts gathered from the concurrent calls, and
`routerResp` is the raw text the designated router backend would return to
the single synchronous `quick_vote` fallback call. -/
def vote (responses : List (List Char)) (routerResp : List Char) : VoteResult :=
  if responses.isEmpty then
    let a := parse_action routerResp
    ⟨a, 1 / 2, fun b => if b = a then 1 else 0, []⟩
  else
    tally_votes responses

/-- One `MODEL_CATALOG` entry (config.py), fields in source order. -/
structure ModelInfo where
  size_mb : Nat
  ram_mb : Nat
  tier : Nat
  capabilities : List String
  speed_rating : Nat
  code_quality : Nat
  reasoning_quality : Nat
  always_keep : Bool
deriving DecidableEq, Repr

/-- `MODEL_CATALOG` (config.py lines 5-56) as an association list in Python
dict insertion order. -/
def MODEL_CATALOG : List (String × ModelInfo) :=
  [("qwen2.5:0.5b",
    ⟨397, 500, 0, ["classification", "voting", "simple_code", "routing"], 5, 2, 2, true⟩),
   ("tinyllama",
    ⟨637, 800, 0, ["classification", "voting", "review", "routing"], 5, 2, 3, false⟩),
   ("qwen2.5-coder:1.5b",
    ⟨986, 1200, 1, ["code_generation", "debugging", "refactoring"], 3, 4, 3, false⟩),
   ("qwen2.5-coder:3b",
    ⟨1900, 2500, 2, ["complex_code", "architecture", "reasoning"], 2, 4, 4, false⟩),
   ("phi3:mini",
    ⟨2200, 2800, 2, ["reasoning", "review", "analysis"], 2, 3, 4, false⟩)]

/-- One `TASK_REQUIREMENTS` entry (config.py lines 58-94). -/
structure TaskReq where
  min_capabilities : List String
  min_tier : Nat
  prefer_tier : Nat
  complexity_upgrade : List (String × Nat)
  voter_count : Option Nat
deriving DecidableEq, Repr

/-- `TASK_REQUIREMENTS` (config.py lines 58-94). -/
def TASK_REQUIREMENTS : List (String × TaskReq) :=
  [("routing", ⟨["classification"], 0, 0, [], none⟩),
   ("code_generation",
    ⟨["code_generation"], 1, 1, [("medium", 1), ("complex", 2)], none⟩),
   ("simple_code", ⟨["simple_code"], 0, 0, [], none⟩),
   ("voting", ⟨["voting"], 0, 0, [], some 3⟩),
   ("review", ⟨["review"], 0, 0, [], none⟩),
   ("debugging", ⟨["debugging"], 1, 1, [], none⟩)]

/-- `DEFAULT_ROUTER_MODEL` (config.py line 126). -/
def DEFAULT_ROUTER_MODEL : String := "qwen2.5:0.5b"

/-- `requirements.get(task_type, {})` with the subsequent `.get` defaults of
selector.py lines 32-34: a missing task type behaves as min_tier 0, no
required capabilities, no upgrade table. -/
def reqFor (task_type : String) : TaskReq :=
  (TASK_REQUIREMENTS.lookup task_type).getD ⟨[], 0, 0, [], none⟩

/-- The tier floor after the complexity upgrade of selector.py lines 36-37. -/
def eff_min_tier (task_type complexity : String) : Nat :=
  ((reqFor task_type).complexity_upgrade.lookup complexity).getD
    (reqFor task_type).min_tier

/-- `MODEL_CATALOG.get(model, {})` as used before `can_fit_model`; a model
outside the catalog yields a zeroed descriptor (that path is unreachable for
candidate models, which all come from the catalog). -/
def catInfo (m : String) : ModelInfo :=
  (MODEL_CATALOG.lookup m).getD ⟨0, 0, 0, [], 0, 0, 0, false⟩

/-- `HardwareDetector.can_fit_model` (hardware.py lines 48-51):
`ram_mb < available * 0.7`, with the float arithmetic modelled exactly over
the rationals and the probe's available-RAM figure (in MB) as a parameter. -/
def can_fit_model (info : ModelInfo) (availableMb : ℚ) : Bool :=
  decide ((info.ram_mb : ℚ) < availableMb * (7 / 10))

/-- Stable insertion step for the `candidates.sort(key=size)` of selector.py
line 82: insert before the first strictly larger size, so equal sizes keep
catalog order, matching Python's stable sort. -/
def insertBySize (x : String × ModelInfo) :
    List (String × ModelInfo) → List (String × ModelInfo)
  | [] => [x]
  | y :: ys =>
    if x.2.size_mb < y.2.size_mb then x :: y :: ys else y :: insertBySize x ys

/-- Stable sort of candidate pairs by ascending `size_mb`. -/
def sortBySize : List (String × ModelInfo) → List (String × ModelInfo)
  | [] => []
  | x :: xs => insertBySize x (sortBySize xs)

/-- `ModelSelector._get_candidates` (selector.py lines 65-83): keep catalog
entries whose tier lies in `[min_tier, max_tier]` and whose capabilities
include every required capability, sorted ascending by size. -/
def get_candidates (min_tier : Nat) (min_caps : List String) (max_tier : Nat) :
    List String :=
  (sortBySize (MODEL_CATALOG.filter (fun p =>
    decide (min_tier ≤ p.2.tier) && decide (p.2.tier ≤ max_tier) &&
    min_caps.all (fun c => p.2.capabilities.contains c)))).map Prod.fst

/-- The candidate list computed inside `select_for_task` (selector.py lines
32-41), with the hardware tier cap `hwMaxTier` (`hardware.get_max_tier()`)
as a parameter; `max_tier = min(hwMaxTier, 2)`. -/
def task_candidates (task_type complexity : String) (hwMaxTier : Nat) :
    List String :=
  get_candidates (eff_min_tier task_type complexity)
    (reqFor task_type).min_capabilities (min hwMaxTier 2)

/-- First pass of `select_for_task` (selector.py lines 43-49): the first
candidate, in ascending size order, that is installed and fits in RAM.
`installed` is `registry.get_installed_models()` and `availableMb` the
available-RAM probe. -/
def first_pass (task_type complexity : String) (hwMaxTier : Nat)
    (installed : List String) (availableMb : ℚ) : Option String :=
  (task_candidates task_type complexity hwMaxTier).find? (fun m =>
    installed.contains m && can_fit_model (catInfo m) availableMb)

/-- Second pass of `select_for_task` (selector.py lines 51-57): the first
candidate that fits in RAM and that `downloader.ensure_available` (the
`ensureOk` oracle) succeeds on. -/
def second_pass (task_type complexity : String) (hwMaxTier : Nat)
    (availableMb : ℚ) (ensureOk : String → Bool) : Option String :=
  (task_candidates task_type complexity hwMaxTier).find? (fun m =>
    can_fit_model (catInfo m) availableMb && ensureOk m)

/-- `ModelSelector.select_for_task` (selector.py lines 21-63).  Registry
usage-recording side effects are not claim-relevant and are omitted; every
external input (hardware tier cap, installed list, available RAM, download
outcomes) is an explicit parameter.  Note that every return site yields
`some`: the final fallbacks (lines 59-63) return any installed catalog
model, else `DEFAULT_ROUTER_MODEL`. -/
def select_for_task (task_type complexity : String) (offline : Bool)
    (hwMaxTier : Nat) (installed : List String) (availableMb : ℚ)
    (ensureOk : String → Bool) : Option String :=
  match first_pass task_type complexity hwMaxTier installed availableMb with
  | some m => some m
  | none =>
    match (if offline then none
           else second_pass task_type complexity hwMaxTier availableMb ensureOk) with
    | some m => some m
    | none =>
      match installed.find? (fun m => (MODEL_CATALOG.lookup m).isSome) with
      | some m => some m
      | none => some DEFAULT_ROUTER_MODEL

/-- `ModelUninstaller._should_remove` (uninstaller.py lines 42-52): a model
missing from the catalog is always removable; an `always_keep` model never
is; otherwise removable iff its usage count is below 3.  `usage` is the
registry's persisted usage-counter map (absent keys read 0). -/
def should_remove (usage : String → Nat) (m : String) : Bool :=
  match MODEL_CATALOG.lookup m with
  | none => true
  | some info => if info.always_keep then false else decide (usage m < 3)

/-- The models `ModelUninstaller.cleanup_unused` (uninstaller.py lines 15-40)
removes: it iterates a snapshot of the registry's `downloaded_by_swarm` list,
skips `keep_models`, and drops each `_should_remove` model whose external
`ollama rm` (the `ok` oracle) succeeds.  Usage counters are not mutated
during the loop, so the removed set is this filter. -/
def cleanup_removed (swarm keep : List String) (usage : String → Nat)
    (ok : String → Bool) : List String :=
  swarm.filter (fun m => !(keep.contains m) && should_remove usage m && ok m)

/-- `cleanup_unused`'s return value: the number of removed models. -/
def cleanup_unused (swarm keep : List String) (usage : String → Nat)
    (ok : String → Bool) : Nat :=
  (cleanup_removed swarm keep usage ok).length

/-- `ModelRegistry.get_least_used` (registry.py lines 87-98): the first
(in list order) swarm-downloaded model outside `exclude` with minimal usage
count, mirroring Python's `min` which returns the first minimum. -/
def get_least_used (usage : String → Nat) (swarm exclude : List String) :
    Option String :=
  match swarm.filter (fun m => !(exclude.contains m)) with
  | [] => none
  | h :: t => some (t.foldl (fun best x => if usage x < usage best then x else best) h)

/-- The `while` loop of `ModelUninstaller.free_space_for` (uninstaller.py
lines 83-94), as structural recursion on a fuel of `swarm.length + 1`: each
successful pass removes the least-used model from the swarm set, so the fuel
never runs out before the `get_least_used = none` exit (the fuel-0 branch is
unreachable from `free_space_for`).  `freeMb` is the current free disk space
in MB (`free_gb * 1024`), `freed m` the change in free space observed after
removing `m`, and `ok` the external `ollama rm` outcome.  Returns the final
boolean and the list of models removed. -/
def fs_loop (usage : String → Nat) (freed : String → ℚ) (ok : String → Bool)
    (required : ℚ) : Nat → ℚ → List String → Bool × List String
  | 0, _, _ => (false, [])
  | fuel + 1, freeMb, swarm =>
    if freeMb < required + 500 then
      match get_least_used usage swarm [] with
      | none => (false, [])
      | some m =>
        if ok m then
          let r := fs_loop usage freed ok required fuel
            (freeMb + freed m) (swarm.erase m)
          (r.1, m :: r.2)
        else (false, [])
    else (true, [])

/-- `ModelUninstaller.free_space_for` (uninstaller.py lines 71-95): an early
`return True` when free space already exceeds `required + 500` MB, else the
eviction loop. -/
def free_space_for (usage : String → Nat) (freed : String → ℚ)
    (ok : String → Bool) (required freeMb : ℚ) (swarm : List String) :
    Bool × List String :=
  if freeMb > required + 500 then (true, [])
  else fs_loop usage freed ok required (swarm.length + 1) freeMb swarm

/-- The structured outcome of one orchestrator action
(`_execute_action` and its helpers, orchestrator.py lines 249-344), reduced
to the fields the loop control reads: the `success` flag and the optional
`code` payload (only `_plan` produces one). -/
structure ExecResult where
  success : Bool
  code : Option String
deriving DecidableEq, Repr

/-- One entry of the orchestrator's `history` list. -/
structure HistEntry where
  action : Action
  result : ExecResult
deriving DecidableEq, Repr

/-- The dictionary `_run_loop` returns, with the claim-relevant keys. -/
structure RunResult where
  success : Bool
  iterations : Nat
  error : Option String
  result : Option String
deriving DecidableEq, Repr

/-- The test-already-passed short-circuit inside `_vote_on_action`
(orchestrator.py lines 223-230): some history entry is a successful
`test_skill`. -/
def testPassed (history : List HistEntry) : Bool :=
  history.any (fun h => decide (h.action = .test_skill) && h.result.success)

/-- `_vote_on_action` (orchestrator.py lines 207-247): short-circuit to
`complete` when a test already passed, else the swarm vote's action (the
`voteO` oracle, indexed by the iteration number). -/
def vote_on_action (voteO : Nat → Action) (k : Nat)
    (history : List HistEntry) : Action :=
  if testPassed history then .complete else voteO k

/-- The forced-workflow override of `_run_loop` (orchestrator.py lines
153-168), applied to the voted action: bootstrap `plan_skill` on an empty
history, `write_skill`/`plan_skill` on a one-entry plan history depending on
whether an artifact exists, and with two or more entries the
write-success → test and plan-with-artifact → write rules, else the voted
action. -/
def forced_action (history : List HistEntry) (skill : String)
    (voted : Action) : Action :=
  match history with
  | [] => .plan_skill
  | [h] =>
    if h.action = .plan_skill then
      (if skill = "" then .plan_skill else .write_skill)
    else voted
  | a :: b :: t =>
    let last := (b :: t).getLastD a
    if last.action = .write_skill ∧ last.result.success = true then .test_skill
    else if last.action = .plan_skill ∧ skill ≠ "" then .write_skill
    else voted

/-- `_execute_action` (orchestrator.py lines 249-344): `_plan` always
succeeds and yields the (post-stripped) generated code from the coder-model
oracle `planOut`; `_write` fails on an empty artifact, else succeeds;
`_test` fails on an empty artifact, else reports the subprocess outcome
oracle `testOk`; any other action is the unknown-action failure. -/
def execute_action (planOut : Nat → String) (testOk : Nat → Bool) (k : Nat)
    (action : Action) (skill : String) : ExecResult :=
  match action with
  | .plan_skill => ⟨true, some (planOut k)⟩
  | .write_skill => if skill = "" then ⟨false, none⟩ else ⟨true, none⟩
  | .test_skill => if skill = "" then ⟨false, none⟩ else ⟨testOk k, none⟩
  | _ => ⟨false, none⟩

/-- The loop-top check of orchestrator.py lines 136-146: the last recorded
action is a successful `test_skill`. -/
def lastTestPassed (history : List HistEntry) : Bool :=
  match history.getLast? with
  | some h => decide (h.action = .test_skill) && h.result.success
  | none => false

/-- `MAX_ITERATIONS` (orchestrator.py line 17). -/
def MAX_ITERATIONS : Nat := 12

/-- The `while iteration < MAX_ITERATIONS` loop of `_run_loop`
(orchestrator.py lines 123-205), as structural recursion on the fuel
`MAX_ITERATIONS - iteration`; the fuel-0 case is exactly the loop-exhaustion
return of lines 201-205. -/
def run_loop_aux (voteO : Nat → Action) (planOut : Nat → String)
    (testOk : Nat → Bool) :
    Nat → Nat → List HistEntry → String → RunResult
  | 0, iteration, _, _ => ⟨false, iteration, some "Max iterations reached", none⟩
  | fuel + 1, iteration, history, skill =>
    let iter := iteration + 1
    if lastTestPassed history then ⟨true, iter, none, some skill⟩
    else
      let voted := vote_on_action voteO iter history
      let action := forced_action history skill voted
      if action = .complete then ⟨true, iter, none, some skill⟩
      else if action = .failed then
        ⟨false, iter, some "Max iterations or unrecoverable error", none⟩
      else
        let result := execute_action planOut testOk iter action skill
        let hist := history ++ [⟨action, result⟩]
        let skill2 := if result.success then result.code.getD skill else skill
        if result.success ∧ action = .test_skill then ⟨true, iter, none, some skill2⟩
        else run_loop_aux voteO planOut testOk fuel iter hist skill2

/-- `_run_loop` started from iteration 0, empty history, empty artifact
(orchestrator.py lines 127-129). -/
def run_loop (voteO : Nat → Action) (planOut : Nat → String)
    (testOk : Nat → Bool) : RunResult :=
  run_loop_aux voteO planOut testOk MAX_ITERATIONS 0 [] ""

/-! ### Helper lemmas -/

theorem firstIdx_cons_self {α : Type} [DecidableEq α] (x : α) (t : List α) :
    firstIdx (x :: t) x = 0 := by
  simp [firstIdx]

theorem firstIdx_cons_ne {α : Type} [DecidableEq α] {x a : α} (t : List α)
    (h : x ≠ a) : firstIdx (x :: t) a = firstIdx t a + 1 := by
  simp [firstIdx, h]

theorem sum_vocab_count (l : List Action) :
    (actionVocab.map fun a => l.count a).sum = l.length := by
  induction l with
  | nil => decide
  | cons x t ih =>
    have h : ∀ a : Action, (x :: t).count a = t.count a + if x = a then 1 else 0 := by
      intro a
      simp [List.count_cons]
    simp only [actionVocab, List.map_cons, List.map_nil, List.sum_cons,
      List.sum_nil, h, List.length_cons] at *
    cases x <;> simp <;> omega

theorem pickBest_start_le (l : List Action) :
    ∀ t b, l.count b ≤ l.count (pickBest l t b) := by
  intro t
  induction t with
  | nil => intro b; exact Nat.le_refl _
  | cons x t ih =>
    intro b
    by_cases h : l.count b < l.count x
    · simp only [pickBest, if_pos h]
      exact Nat.le_trans (Nat.le_of_lt h) (ih x)
    · simp only [pickBest, if_neg h]
      exact ih b

theorem pickBest_cases (l : List Action) :
    ∀ t b, pickBest l t b = b ∨
      (pickBest l t b ∈ t ∧ l.count b < l.count (pickBest l t b)) := by
  intro t
  induction t with
  | nil => intro b; exact Or.inl rfl
  | cons x t ih =>
    intro b
    by_cases h : l.count b < l.count x
    · simp only [pickBest, if_pos h]
      rcases ih x with heq | ⟨hmem, hlt⟩
      · exact Or.inr ⟨by rw [heq]; exact List.mem_cons_self x t, by rw [heq]; exact h⟩
      · exact Or.inr ⟨List.mem_cons_of_mem x hmem, Nat.lt_trans h hlt⟩
    · simp only [pickBest, if_neg h]
      rcases ih b with heq | ⟨hmem, hlt⟩
      · exact Or.inl heq
      · exact Or.inr ⟨List.mem_cons_of_mem x hmem, hlt⟩

theorem pickBest_max (l : List Action) :
    ∀ t b, ∀ y ∈ t, l.count y ≤ l.count (pickBest l t b) := by
  intro t
  induction t with
  | nil => intro b y hy; cases hy
  | cons x t ih =>
    intro b y hy
    rcases List.mem_cons.mp hy with rfl | hyt
    · by_cases h : l.count b < l.count y
      · simp only [pickBest, if_pos h]
        exact pickBest_start_le l t y
      · simp only [pickBest, if_neg h]
        exact Nat.le_trans (Nat.le_of_not_lt h) (pickBest_start_le l t b)
    · by_cases h : l.count b < l.count x
      · simp only [pickBest, if_pos h]
        exact ih x y hyt
      · simp only [pickBest, if_neg h]
        exact ih b y hyt

theorem pickBest_tie_idx (l : List Action) :
    ∀ t b, pickBest l t b ≠ b → ∀ y ∈ t,
      l.count y = l.count (pickBest l t b) →
      firstIdx t (pickBest l t b) ≤ firstIdx t y := by
  intro t
  induction t with
  | nil => intro b hne; exact absurd rfl hne
  | cons x t ih =>
    intro b hne y hy hcnt
    by_cases h : l.count b < l.count x
    · simp only [pickBest, if_pos h] at *
      by_cases hrx : pickBest l t x = x
      · rw [hrx, firstIdx_cons_self]
        exact Nat.zero_le _
      · rcases pickBest_cases l t x with heq | ⟨hrmem, hxr⟩
        · exact absurd heq hrx
        · by_cases hyx : y = x
          · subst hyx
            exact absurd hcnt (Nat.ne_of_lt hxr)
          · have hyt : y ∈ t := by
              rcases List.mem_cons.mp hy with h1 | h1
              · exact absurd h1 hyx
              · exact h1
            have := ih x hrx y hyt hcnt
            rw [firstIdx_cons_ne t (fun e => hrx e.symm),
              firstIdx_cons_ne t (fun e => hyx e.symm)]
            omega
    · simp only [pickBest, if_neg h] at *
      rcases pickBest_cases l t b with heq | ⟨hrmem, hbr⟩
      · exact absurd heq hne
      · have hxb : l.count x ≤ l.count b := Nat.le_of_not_lt h
        have hrx : pickBest l t b ≠ x := by
          intro e
          rw [e] at hbr
          omega
        by_cases hyx : y = x
        · subst hyx
          rw [hcnt] at hxb
          omega
        · have hyt : y ∈ t := by
            rcases List.mem_cons.mp hy with h1 | h1
            · exact absurd h1 hyx
            · exact h1
          have := ih b hne y hyt hcnt
          rw [firstIdx_cons_ne t (fun e => hrx e.symm),
            firstIdx_cons_ne t (fun e => hyx e.symm)]
          omega

theorem most_common_mem {l : List Action} (h : l ≠ []) : most_common l ∈ l := by
  match l with
  | [] => exact absurd rfl h
  | x :: t =>
    simp only [most_common]
    rcases pickBest_cases (x :: t) t x with heq | ⟨hmem, _⟩
    · rw [heq]; exact List.mem_cons_self x t
    · exact List.mem_cons_of_mem x hmem

theorem most_common_max (l : List Action) (a : Action) :
    l.count a ≤ l.count (most_common l) := by
  match l with
  | [] => simp [most_common]
  | x :: t =>
    simp only [most_common]
    by_cases ha : a ∈ x :: t
    · rcases List.mem_cons.mp ha with rfl | hat
      · exact pickBest_start_le (a :: t) t a
      · exact pickBest_max (x :: t) t x a hat
    · rw [List.count_eq_zero.mpr ha]
      exact Nat.zero_le _

theorem most_common_tie (l : List Action) (a : Action) (ha : a ∈ l)
    (hcnt : l.count a = l.count (most_common l)) :
    firstIdx l (most_common l) ≤ firstIdx l a := by
  match l with
  | [] => cases ha
  | x :: t =>
    simp only [most_common] at *
    by_cases hwx : pickBest (x :: t) t x = x
    · rw [hwx, firstIdx_cons_self]
      exact Nat.zero_le _
    · rcases pickBest_cases (x :: t) t x with heq | ⟨hwmem, hxw⟩
      · exact absurd heq hwx
      · by_cases hax : a = x
        · subst hax
          exact absurd hcnt (Nat.ne_of_lt hxw)
        · have hat : a ∈ t := by
            rcases List.mem_cons.mp ha with h1 | h1
            · exact absurd h1 hax
            · exact h1
          have := pickBest_tie_idx (x :: t) t x hwx a hat hcnt
          rw [firstIdx_cons_ne t (fun e => hwx e.symm),
            firstIdx_cons_ne t (fun e => hax e.symm)]
          omega

/-! ### Claims about the Voter (C3, C4, C8) -/

/-- C3: for every non-empty list of usable voter responses, the vote
histogram's counts sum to the number of usable responses, and confidence
equals histogram[chosen_action] divided by that sum. -/
theorem C3_histogram_sum_confidence (rs : List (List Char)) (q : List Char)
    (hne : rs ≠ []) :
    (actionVocab.map (vote rs q).votes).sum = rs.length ∧
    (vote rs q).confidence =
      ((vote rs q).votes (vote rs q).action : ℚ) /
        (((actionVocab.map (vote rs q).votes).sum : ℚ)) := by
  obtain ⟨x, t, rfl⟩ := List.exists_cons_of_ne_nil hne
  have h1 : (vote (x :: t) q).votes =
      fun a => ((x :: t).map parse_action).count a := rfl
  have h2 : (vote (x :: t) q).action =
      most_common ((x :: t).map parse_action) := rfl
  have h3 : (vote (x :: t) q).confidence =
      (((x :: t).map parse_action).count
          (most_common ((x :: t).map parse_action)) : ℚ) /
        ((((x :: t).map parse_action).length : Nat) : ℚ) := rfl
  constructor
  · rw [h1, sum_vocab_count, List.length_map]
  · rw [h1, h2, h3, sum_vocab_count, List.length_map]

/-- C3 witness: a concrete two-response vote, instantiating
`C3_histogram_sum_confidence`. -/
theorem C3_witness :
    (actionVocab.map
      (vote ["plan_skill".toList, "test_skill".toList] []).votes).sum = 2 ∧
    (vote ["plan_skill".toList, "test_skill".toList] []).confidence =
      ((vote ["plan_skill".toList, "test_skill".toList] []).votes
          (vote ["plan_skill".toList, "test_skill".toList] []).action : ℚ) /
        ((actionVocab.map
          (vote ["plan_skill".toList, "test_skill".toList] []).votes).sum : ℚ) := by
  have h := C3_histogram_sum_confidence
    ["plan_skill".toList, "test_skill".toList] [] (by decide)
  exact ⟨h.1, h.2⟩

/-- C4 counterexample: parsed actions `test_skill, plan_skill` tie at one
vote each; the code's winner is `test_skill` (the first-occurring tied
leader), although `plan_skill` comes first in the action vocabulary, so the
claimed vocabulary-order tie-break is false. -/
theorem C4_counterexample :
    (vote ["test_skill".toList, "plan_skill".toList] []).action = .test_skill ∧
    (vote ["test_skill".toList, "plan_skill".toList] []).votes .plan_skill =
      (vote ["test_skill".toList, "plan_skill".toList] []).votes .test_skill ∧
    firstIdx actionVocab .plan_skill < firstIdx actionVocab .test_skill := by
  refine ⟨?_, ?_, ?_⟩ <;> decide

/-- C4 amended: when tallying a non-empty list of parsed voter actions, the
action with the highest count wins, and when two or more actions tie for the
highest count the winner is the tied leader whose first occurrence in the
parsed-action sequence is earliest (Python `Counter` insertion order), not
the first-listed in the vocabulary enumeration. -/
theorem C4_majority_first_occurrence (rs : List (List Char)) (q : List Char)
    (hne : rs ≠ []) :
    (vote rs q).action ∈ rs.map parse_action ∧
    (∀ a : Action, (rs.map parse_action).count a ≤
      (rs.map parse_action).count ((vote rs q).action)) ∧
    (∀ a ∈ rs.map parse_action,
      (rs.map parse_action).count a =
        (rs.map parse_action).count ((vote rs q).action) →
      firstIdx (rs.map parse_action) ((vote rs q).action) ≤
        firstIdx (rs.map parse_action) a) := by
  obtain ⟨x, t, rfl⟩ := List.exists_cons_of_ne_nil hne
  have h2 : (vote (x :: t) q).action =
      most_common ((x :: t).map parse_action) := rfl
  rw [h2]
  exact ⟨most_common_mem (by simp), fun a => most_common_max _ a,
    fun a ha hc => most_common_tie _ a ha hc⟩

/-- C4 witness: the amended tie-break applied to the concrete tied vote. -/
theorem C4_witness :
    (vote ["test_skill".toList, "plan_skill".toList] []).action ∈
      (["test_skill".toList, "plan_skill".toList].map parse_action) ∧
    (["test_skill".toList, "plan_skill".toList].map parse_action).count
        .plan_skill ≤
      (["test_skill".toList, "plan_skill".toList].map parse_action).count
        ((vote ["test_skill".toList, "plan_skill".toList] []).action) := by
  have h := C4_majority_first_occurrence
    ["test_skill".toList, "plan_skill".toList] [] (by decide)
  exact ⟨h.1, h.2.1 .plan_skill⟩

/-- C8: with zero usable responses, `vote` returns the parsed action of the
single synchronous router call, confidence exactly 0.5, the one-entry
histogram mapping that action to 1, and an empty raw-responses list. -/
theorem C8_empty_fallback (q : List Char) :
    (vote [] q).action = parse_action q ∧
    (vote [] q).confidence = 1 / 2 ∧
    (∀ b : Action, (vote [] q).votes b = if b = parse_action q then 1 else 0) ∧
    (vote [] q).responses = [] :=
  ⟨rfl, rfl, fun _ => rfl, rfl⟩

/-! ### Claims about the Evictor (C6, C7) -/

/-- C6 counterexample: a swarm-acquired backend absent from the catalog
(`"ghost"`) with usage count 5 is removed by `cleanup_unused` even though
its usage count is not below 3, refuting the claimed iff. -/
theorem C6_counterexample :
    "ghost" ∈ cleanup_removed ["ghost"] [] (fun _ => 5) (fun _ => true) ∧
    cleanup_unused ["ghost"] [] (fun _ => 5) (fun _ => true) = 1 ∧
    ¬((5 : Nat) < 3) := by
  refine ⟨?_, ?_, ?_⟩ <;> decide

/-- C6 amended: `cleanup_unused` removes a swarm-acquired backend (whose
external removal succeeds) if and only if it is not in keepIds and either is
absent from the catalog, or is not flagged always_keep and has usage
count < 3; in particular a catalogued backend flagged always_keep is never
removed, even with empty keepIds and usage 0. -/
theorem C6_removal_characterization (swarm keep : List String)
    (usage : String → Nat) (ok : String → Bool) (m : String) :
    (m ∈ cleanup_removed swarm keep usage ok ↔
      m ∈ swarm ∧ m ∉ keep ∧ ok m = true ∧
        (MODEL_CATALOG.lookup m = none ∨
          ∃ info, MODEL_CATALOG.lookup m = some info ∧
            info.always_keep = false ∧ usage m < 3)) ∧
    (∀ info, MODEL_CATALOG.lookup m = some info → info.always_keep = true →
      m ∉ cleanup_removed swarm keep usage ok) := by
  have hiff : m ∈ cleanup_removed swarm keep usage ok ↔
      m ∈ swarm ∧ m ∉ keep ∧ ok m = true ∧
        (MODEL_CATALOG.lookup m = none ∨
          ∃ info, MODEL_CATALOG.lookup m = some info ∧
            info.always_keep = false ∧ usage m < 3) := by
    simp only [cleanup_removed, List.mem_filter, Bool.and_eq_true,
      Bool.not_eq_true']
    have hk : keep.contains m = false ↔ m ∉ keep := by
      simp [List.elem_iff]
    have hs : should_remove usage m = true ↔
        (MODEL_CATALOG.lookup m = none ∨
          ∃ info, MODEL_CATALOG.lookup m = some info ∧
            info.always_keep = false ∧ usage m < 3) := by
      unfold should_remove
      cases h : MODEL_CATALOG.lookup m with
      | none => simp
      | some info =>
        cases hak : info.always_keep with
        | true => simp [hak]
        | false => simp [hak]
    constructor
    · rintro ⟨hmem, ⟨⟨hkc, hsr⟩, hok⟩⟩
      exact ⟨hmem, hk.mp hkc, hok, hs.mp hsr⟩
    · rintro ⟨hmem, hkc, hok, hsr⟩
      exact ⟨hmem, ⟨⟨hk.mpr hkc, hs.mpr hsr⟩, hok⟩⟩
  refine ⟨hiff, ?_⟩
  intro info hl hak hmem
  rcases (hiff.mp hmem).2.2.2 with hnone | ⟨info2, hl2, hak2, _⟩
  · rw [hl] at hnone
    cases hnone
  · rw [hl] at hl2
    cases hl2
    rw [hak] at hak2
    cases hak2

/-- C6 witness: the always_keep backend `qwen2.5:0.5b` is not removed even
with empty keepIds and usage 0, by `C6_removal_characterization`. -/
theorem C6_witness :
    "qwen2.5:0.5b" ∉
      cleanup_removed ["qwen2.5:0.5b"] [] (fun _ => 0) (fun _ => true) := by
  have h := C6_removal_characterization ["qwen2.5:0.5b"] []
    (fun _ => 0) (fun _ => true) "qwen2.5:0.5b"
  exact h.2 ⟨397, 500, 0, ["classification", "voting", "simple_code", "routing"],
    5, 2, 2, true⟩ (by decide) rfl

/-- C7 counterexample: with an empty swarm-acquired set but ample free disk
space (10000 MB free, 100 MB required), `free_space_for` returns true, not
the claimed false (it removes nothing, as claimed). -/
theorem C7_counterexample :
    free_space_for (fun _ => 0) (fun _ => 0) (fun _ => true) 100 10000 []
      = (true, []) := by
  unfold free_space_for
  rw [if_pos (by norm_num : (10000 : ℚ) > 100 + 500)]

/-- C7 amended: with an empty swarm-acquired set, `free_space_for` removes
nothing and returns true exactly when free space already meets the
`requiredMb + 500` margin, false otherwise. -/
theorem C7_empty_swarm (usage : String → Nat) (freed : String → ℚ)
    (ok : String → Bool) (required freeMb : ℚ) :
    free_space_for usage freed ok required freeMb [] =
      (decide (required + 500 ≤ freeMb), []) := by
  unfold free_space_for
  by_cases h : freeMb > required + 500
  · rw [if_pos h, decide_eq_true (le_of_lt h)]
  · rw [if_neg h]
    show fs_loop usage freed ok required 1 freeMb [] = _
    by_cases h2 : freeMb < required + 500
    · have hd : decide (required + 500 ≤ freeMb) = false :=
        decide_eq_false (not_le_of_lt h2)
      rw [hd]
      simp only [fs_loop, if_pos h2]
      rfl
    · have hle : required + 500 ≤ freeMb := le_of_not_lt h2
      rw [decide_eq_true hle]
      simp only [fs_loop, if_neg h2]

/-! ### Selector helper lemmas -/

theorem lookup_mem {β : Type} {l : List (String × β)} {a : String} {b : β}
    (h : l.lookup a = some b) : (a, b) ∈ l := by
  induction l with
  | nil => cases h
  | cons p t ih =>
    obtain ⟨k, v⟩ := p
    cases hbe : a == k with
    | true =>
      simp only [List.lookup, hbe] at h
      cases h
      have : a = k := by
        have := of_decide_eq_true (by simpa using hbe)
        exact this
      rw [this]
      exact List.mem_cons_self _ _
    | false =>
      simp only [List.lookup, hbe] at h
      exact List.mem_cons_of_mem _ (ih h)

theorem find?_firstIdx {α : Type} [DecidableEq α] {p : α → Bool} :
    ∀ {l : List α} {m : α}, l.find? p = some m →
      ∀ x ∈ l, p x = true → firstIdx l m ≤ firstIdx l x := by
  intro l
  induction l with
  | nil => intro m h; cases h
  | cons a t ih =>
    intro m h x hx hpx
    cases hpa : p a with
    | true =>
      rw [List.find?_cons_of_pos _ hpa] at h
      cases h
      rw [firstIdx_cons_self]
      exact Nat.zero_le _
    | false =>
      rw [List.find?_cons_of_neg _ (by simp [hpa])] at h
      have hpm := List.find?_some h
      have hma : a ≠ m := by
        intro e
        rw [← e] at hpm
        rw [hpm] at hpa
        cases hpa
      rcases List.mem_cons.mp hx with rfl | hxt
      · rw [hpx] at hpa
        cases hpa
      · have hxa : a ≠ x := by
          intro e
          rw [e, hpx] at hpa
          cases hpa
        rw [firstIdx_cons_ne t hma, firstIdx_cons_ne t hxa]
        exact Nat.succ_le_succ (ih h x hxt hpx)

theorem mem_insertBySize {x y : String × ModelInfo}
    {l : List (String × ModelInfo)} :
    y ∈ insertBySize x l ↔ y = x ∨ y ∈ l := by
  induction l with
  | nil => simp [insertBySize]
  | cons a t ih =>
    simp only [insertBySize]
    by_cases h : x.2.size_mb < a.2.size_mb
    · rw [if_pos h]
      simp [List.mem_cons]
    · rw [if_neg h]
      simp only [List.mem_cons, ih]
      tauto

theorem mem_sortBySize {y : String × ModelInfo} :
    ∀ {l : List (String × ModelInfo)}, y ∈ sortBySize l ↔ y ∈ l := by
  intro l
  induction l with
  | nil => simp [sortBySize]
  | cons a t ih =>
    simp only [sortBySize, mem_insertBySize, List.mem_cons, ih]

theorem mem_get_candidates {m : String} {minT maxT : Nat} {caps : List String}
    (h : m ∈ get_candidates minT caps maxT) :
    ∃ info, (m, info) ∈ MODEL_CATALOG ∧ minT ≤ info.tier ∧ info.tier ≤ maxT ∧
      ∀ c ∈ caps, c ∈ info.capabilities := by
  unfold get_candidates at h
  obtain ⟨p, hp, hpe⟩ := List.mem_map.mp h
  rw [mem_sortBySize] at hp
  obtain ⟨hpc, hpred⟩ := List.mem_filter.mp hp
  simp only [Bool.and_eq_true, decide_eq_true_eq, List.all_eq_true] at hpred
  refine ⟨p.2, ?_, hpred.1.1, hpred.1.2, ?_⟩
  · rw [← hpe]
    exact hpc
  · intro c hc
    have := hpred.2 c hc
    exact (List.elem_iff).mp this

theorem mem_task_candidates {m : String} {tt cx : String} {hw : Nat}
    (h : m ∈ task_candidates tt cx hw) :
    ∃ info, (m, info) ∈ MODEL_CATALOG ∧ eff_min_tier tt cx ≤ info.tier ∧
      info.tier ≤ min hw 2 ∧
      ∀ c ∈ (reqFor tt).min_capabilities, c ∈ info.capabilities :=
  mem_get_candidates h

theorem catalog_key_ne_empty {m : String} {info : ModelInfo}
    (h : (m, info) ∈ MODEL_CATALOG) : m ≠ "" := by
  simp only [ MODEL_CATALOG, List.mem_cons, Prod.mk.injEq] at h
  rcases h with ⟨rfl, _⟩ | ⟨rfl, _⟩ | ⟨rfl, _⟩ | ⟨rfl, _⟩ | ⟨rfl, _⟩ | h
  · decide
  · decide
  · decide
  · decide
  · decide
  · exact absurd h (List.not_mem_nil _)

/-- Case split on the four return sites of `select_for_task`: a result from
the first or second pass is a tier-and-capability candidate; the third
return site yields an installed catalog model; the last yields the default
router model. -/
theorem select_for_task_cases {tt cx : String} {offline : Bool} {hw : Nat}
    {installed : List String} {avail : ℚ} {ensureOk : String → Bool}
    {m : String}
    (h : select_for_task tt cx offline hw installed avail ensureOk = some m) :
    (∃ info, (m, info) ∈ MODEL_CATALOG ∧ eff_min_tier tt cx ≤ info.tier ∧
      info.tier ≤ min hw 2 ∧
      ∀ c ∈ (reqFor tt).min_capabilities, c ∈ info.capabilities) ∨
    (m ∈ installed ∧ ∃ info, (m, info) ∈ MODEL_CATALOG) ∨
    m = DEFAULT_ROUTER_MODEL := by
  unfold select_for_task at h
  cases h1 : first_pass tt cx hw installed avail with
  | some m1 =>
    rw [h1] at h
    cases h
    exact Or.inl (mem_task_candidates (List.mem_of_find?_eq_some h1))
  | none =>
    rw [h1] at h
    cases h2 : (if offline then none
        else second_pass tt cx hw avail ensureOk) with
    | some m2 =>
      rw [h2] at h
      cases h
      have hsp : second_pass tt cx hw avail ensureOk = some m := by
        by_cases ho : offline
        · rw [if_pos ho] at h2
          cases h2
        · rw [if_neg ho] at h2
          exact h2
      exact Or.inl (mem_task_candidates (List.mem_of_find?_eq_some hsp))
    | none =>
      rw [h2] at h
      cases h3 : installed.find? (fun m => (MODEL_CATALOG.lookup m).isSome) with
      | some m3 =>
        rw [h3] at h
        cases h
        have hmem := List.mem_of_find?_eq_some h3
        have hp := List.find?_some h3
        obtain ⟨info, hinfo⟩ := Option.isSome_iff_exists.mp hp
        exact Or.inr (Or.inl ⟨hmem, info, lookup_mem hinfo⟩)
      | none =>
        rw [h3] at h
        cases h
        exact Or.inr (Or.inr rfl)

/-! ### Claims about the Selector (C1, C9, C10) -/

/-- C1 counterexample: for `code_generation` at `complex` complexity the
effective min tier is 2, while a hardware tier cap of 1 gives
`max_tier = 1 < 2`; the claim says the selection must be NotFound, but the
code returns the default router model `qwen2.5:0.5b`. -/
theorem C1_counterexample :
    select_for_task "code_generation" "complex" true 1 [] 1000 (fun _ => false)
        = some "qwen2.5:0.5b" ∧
    eff_min_tier "code_generation" "complex" = 2 ∧
    min 1 2 = 1 := by
  refine ⟨?_, ?_, ?_⟩ <;> decide

/-- C1 amended: whenever `select_for_task` returns a model, it either is a
catalog backend whose tier lies in [effective min_tier, min(hardware cap, 2)]
and whose capabilities include every required capability (the first two
passes), or it is an installed catalog backend, or it is the fixed default
router model; no NotFound outcome exists, in particular not when
min_tier > max_tier. -/
theorem C1_select_window_or_fallback (tt cx : String) (offline : Bool)
    (hw : Nat) (installed : List String) (avail : ℚ) (ensureOk : String → Bool)
    (m : String)
    (h : select_for_task tt cx offline hw installed avail ensureOk = some m) :
    (∃ info, (m, info) ∈ MODEL_CATALOG ∧ eff_min_tier tt cx ≤ info.tier ∧
      info.tier ≤ min hw 2 ∧
      ∀ c ∈ (reqFor tt).min_capabilities, c ∈ info.capabilities) ∨
    (m ∈ installed ∧ ∃ info, (m, info) ∈ MODEL_CATALOG) ∨
    m = DEFAULT_ROUTER_MODEL :=
  select_for_task_cases h

/-- C1 witness: the amended statement instantiated at the counterexample's
configuration, where the default-router disjunct holds. -/
theorem C1_witness :
    (∃ info, ("qwen2.5:0.5b", info) ∈ MODEL_CATALOG ∧
      eff_min_tier "code_generation" "complex" ≤ info.tier ∧
      info.tier ≤ min 1 2 ∧
      ∀ c ∈ (reqFor "code_generation").min_capabilities, c ∈ info.capabilities) ∨
    ("qwen2.5:0.5b" ∈ ([] : List String) ∧
      ∃ info, ("qwen2.5:0.5b", info) ∈ MODEL_CATALOG) ∨
    "qwen2.5:0.5b" = DEFAULT_ROUTER_MODEL :=
  C1_select_window_or_fallback "code_generation" "complex" true 1 [] 1000
    (fun _ => false) "qwen2.5:0.5b" (by decide)

/-- C9 counterexample: with only `tinyllama` resident and 100 MB of
available RAM, the selector's fallback returns `tinyllama` — a resident
candidate whose 800 MB footprint far exceeds 70% of available memory — so
the claimed "never returns a resident candidate over the 70% budget" is
false (the 70% fit test only guards the first two passes). -/
theorem C9_counterexample :
    select_for_task "routing" "simple" true 2 ["tinyllama"] 100 (fun _ => false)
        = some "tinyllama" ∧
    "tinyllama" ∈ task_candidates "routing" "simple" 2 ∧
    "tinyllama" ∈ ["tinyllama"] ∧
    (catInfo "tinyllama").ram_mb = 800 ∧
    ¬(((catInfo "tinyllama").ram_mb : ℚ) ≤ 100 * (7 / 10)) := by
  have hram : (catInfo "tinyllama").ram_mb = 800 := rfl
  have hfit : can_fit_model (catInfo "tinyllama") 100 = false := by
    unfold can_fit_model
    rw [hram]
    exact decide_eq_false (by push_cast; norm_num)
  have hfp : first_pass "routing" "simple" 2 ["tinyllama"] 100 = none := by
    unfold first_pass
    rw [List.find?_eq_none]
    intro x hx
    rw [show task_candidates "routing" "simple" 2 =
      ["qwen2.5:0.5b", "tinyllama"] from by decide] at hx
    rcases List.mem_cons.mp hx with rfl | hx2
    · rw [show (["tinyllama"].contains "qwen2.5:0.5b") = false from by decide]
      simp
    · rcases List.mem_singleton.mp hx2 with rfl
      rw [hfit]
      simp
  refine ⟨?_, by decide, by decide, hram, ?_⟩
  · unfold select_for_task
    rw [hfp]
    decide
  · rw [hram]
    push_cast
    norm_num

/-- C9 amended: the fit test accepts a model exactly when its ram_mb is
strictly below 0.7 × available memory, and any model returned by the first
pass is resident, is a candidate, satisfies that strict bound, and is the
first candidate (in the sorted order) that is both resident and fitting;
the later fallback passes are not covered by the bound. -/
theorem C9_first_pass_strict :
    (∀ (info : ModelInfo) (avail : ℚ),
      can_fit_model info avail = true ↔ (info.ram_mb : ℚ) < avail * (7 / 10)) ∧
    (∀ (tt cx : String) (hw : Nat) (installed : List String) (avail : ℚ)
      (m : String), first_pass tt cx hw installed avail = some m →
        m ∈ installed ∧ m ∈ task_candidates tt cx hw ∧
        ((catInfo m).ram_mb : ℚ) < avail * (7 / 10) ∧
        ∀ x ∈ task_candidates tt cx hw,
          (installed.contains x && can_fit_model (catInfo x) avail) = true →
          firstIdx (task_candidates tt cx hw) m ≤
            firstIdx (task_candidates tt cx hw) x) := by
  constructor
  · intro info avail
    unfold can_fit_model
    exact decide_eq_true_iff
  · intro tt cx hw installed avail m h
    have hpred := List.find?_some h
    rw [Bool.and_eq_true] at hpred
    refine ⟨List.elem_iff.mp hpred.1, List.mem_of_find?_eq_some h, ?_, ?_⟩
    · have := hpred.2
      unfold can_fit_model at this
      exact of_decide_eq_true this
    · exact fun x hx hpx => find?_firstIdx h x hx hpx

/-- C9 witness: with `qwen2.5:0.5b` resident and 1000 MB available, the
first pass returns it and `C9_first_pass_strict` yields the strict bound
500 < 700. -/
theorem C9_witness :
    "qwen2.5:0.5b" ∈ ["qwen2.5:0.5b"] ∧
    ((catInfo "qwen2.5:0.5b").ram_mb : ℚ) < 1000 * (7 / 10) := by
  have hfit : can_fit_model (catInfo "qwen2.5:0.5b") 1000 = true := by
    unfold can_fit_model
    rw [show (catInfo "qwen2.5:0.5b").ram_mb = 500 from rfl]
    exact decide_eq_true (by push_cast; norm_num)
  have hfp : first_pass "routing" "simple" 2 ["qwen2.5:0.5b"] 1000 =
      some "qwen2.5:0.5b" := by
    unfold first_pass
    rw [show task_candidates "routing" "simple" 2 =
      ["qwen2.5:0.5b", "tinyllama"] from by decide]
    apply List.find?_cons_of_pos
    rw [show (["qwen2.5:0.5b"].contains "qwen2.5:0.5b") = true from by decide,
      hfit]
    rfl
  have h := C9_first_pass_strict.2 "routing" "simple" 2 ["qwen2.5:0.5b"] 1000
    "qwen2.5:0.5b" hfp
  exact ⟨h.1, h.2.2.1⟩

/-- C10: `select_for_task` always returns some model identifier and that
identifier is never the empty string, so the orchestrator's
"No suitable model available" branch (which tests Python falsiness of the
result) is unreachable. -/
theorem C10_always_selects (tt cx : String) (offline : Bool) (hw : Nat)
    (installed : List String) (avail : ℚ) (ensureOk : String → Bool) :
    (select_for_task tt cx offline hw installed avail ensureOk).isSome = true ∧
    ∀ m, select_for_task tt cx offline hw installed avail ensureOk = some m →
      m ≠ "" := by
  constructor
  · unfold select_for_task
    cases h1 : first_pass tt cx hw installed avail with
    | some m1 => rfl
    | none =>
      cases h2 : (if offline then none
          else second_pass tt cx hw avail ensureOk) with
      | some m2 => rfl
      | none =>
        cases h3 : installed.find? (fun m => (MODEL_CATALOG.lookup m).isSome) with
        | some m3 => rfl
        | none => rfl
  · intro m h
    rcases select_for_task_cases h with ⟨info, hmem, _⟩ | ⟨_, info, hmem⟩ | rfl
    · exact catalog_key_ne_empty hmem
    · exact catalog_key_ne_empty hmem
    · decide

/-- C10 witness: a configuration with nothing installed still selects the
default router model, a non-empty identifier. -/
theorem C10_witness :
    (select_for_task "routing" "simple" true 2 [] 100
      (fun _ => false)).isSome = true ∧
    "qwen2.5:0.5b" ≠ "" := by
  have h := C10_always_selects "routing" "simple" true 2 [] 100 (fun _ => false)
  exact ⟨h.1, h.2 "qwen2.5:0.5b" (by decide)⟩

/-! ### Claims about the Orchestrator (C2, C5) -/

theorem run_loop_aux_spec (voteO : Nat → Action) (planOut : Nat → String)
    (testOk : Nat → Bool) :
    ∀ fuel iteration history skill,
      (run_loop_aux voteO planOut testOk fuel iteration history skill).iterations
          ≤ fuel + iteration ∧
      ((run_loop_aux voteO planOut testOk fuel iteration history skill).error =
          some "Max iterations reached" →
        (run_loop_aux voteO planOut testOk fuel iteration history skill).success
            = false ∧
        (run_loop_aux voteO planOut testOk fuel iteration history skill).iterations
            = fuel + iteration) := by
  intro fuel
  induction fuel with
  | zero =>
    intro iteration history skill
    refine ⟨?_, fun _ => ⟨rfl, ?_⟩⟩
    · show iteration ≤ 0 + iteration
      omega
    · show iteration = 0 + iteration
      omega
  | succ fuel ih =>
    intro iteration history skill
    simp only [run_loop_aux]
    by_cases h1 : lastTestPassed history
    · rw [if_pos h1]
      refine ⟨?_, fun he => absurd he ?_⟩
      · show iteration + 1 ≤ fuel + 1 + iteration
        omega
      · show ¬((none : Option String) = some "Max iterations reached")
        simp
    · rw [if_neg h1]
      by_cases h2 : forced_action history skill
          (vote_on_action voteO (iteration + 1) history) = .complete
      · rw [if_pos h2]
        refine ⟨?_, fun he => absurd he ?_⟩
        · show iteration + 1 ≤ fuel + 1 + iteration
          omega
        · show ¬((none : Option String) = some "Max iterations reached")
          simp
      · rw [if_neg h2]
        by_cases h3 : forced_action history skill
            (vote_on_action voteO (iteration + 1) history) = .failed
        · rw [if_pos h3]
          refine ⟨?_, fun he => ?_⟩
          · show iteration + 1 ≤ fuel + 1 + iteration
            omega
          · exact absurd (Option.some.inj he) (by decide)
        · rw [if_neg h3]
          by_cases h4 : (execute_action planOut testOk (iteration + 1)
              (forced_action history skill
                (vote_on_action voteO (iteration + 1) history)) skill).success
              = true ∧
              forced_action history skill
                (vote_on_action voteO (iteration + 1) history) = .test_skill
          · rw [if_pos h4]
            refine ⟨?_, fun he => absurd he ?_⟩
            · show iteration + 1 ≤ fuel + 1 + iteration
              omega
            · show ¬((none : Option String) = some "Max iterations reached")
              simp
          · rw [if_neg h4]
            refine ⟨Nat.le_trans (ih (iteration + 1) _ _).1 (by omega),
              fun he => ?_⟩
            obtain ⟨hs, hi⟩ := (ih (iteration + 1) _ _).2 he
            exact ⟨hs, hi.trans (by omega)⟩

/-- C2: for every sequence of voted actions and every behavior of the
external plan/test capabilities — including an adversarial voter that always
returns plan_skill — the orchestration loop terminates within
MAX_ITERATIONS (12) iterations, and if it ends by exhausting the bound the
result is a failure carrying the max-iterations reason and iteration
count 12. -/
theorem C2_loop_bound (voteO : Nat → Action) (planOut : Nat → String)
    (testOk : Nat → Bool) :
    (run_loop voteO planOut testOk).iterations ≤ MAX_ITERATIONS ∧
    ((run_loop voteO planOut testOk).error = some "Max iterations reached" →
      (run_loop voteO planOut testOk).success = false ∧
      (run_loop voteO planOut testOk).iterations = MAX_ITERATIONS) := by
  have h := run_loop_aux_spec voteO planOut testOk MAX_ITERATIONS 0 [] ""
  unfold run_loop
  simpa using h

/-- C2 witness: the adversarial voter that always answers plan_skill, with a
never-passing test, exhausts all 12 iterations and ends in the
max-iterations failure, by `C2_loop_bound`. -/
theorem C2_witness :
    (run_loop (fun _ => .plan_skill) (fun _ => "x") (fun _ => false)).error =
        some "Max iterations reached" ∧
    (run_loop (fun _ => .plan_skill) (fun _ => "x") (fun _ => false)).success
        = false ∧
    (run_loop (fun _ => .plan_skill) (fun _ => "x") (fun _ => false)).iterations
        = MAX_ITERATIONS := by
  have h := C2_loop_bound (fun _ => .plan_skill) (fun _ => "x") (fun _ => false)
  have he : (run_loop (fun _ => .plan_skill) (fun _ => "x")
      (fun _ => false)).error = some "Max iterations reached" := by decide
  exact ⟨he, h.2 he⟩

/-- C5: the action the orchestrator executes obeys the forced rules, which
take precedence over the voted action: empty history forces plan_skill; a
one-entry plan_skill history forces write_skill when an artifact exists,
else plan_skill; with two or more entries, a successful write_skill last
action forces test_skill, else a plan_skill last action with an artifact
forces write_skill, else the voted action is used unmodified. -/
theorem C5_forced_rules (history : List HistEntry) (skill : String)
    (voted : Action) :
    (history = [] → forced_action history skill voted = .plan_skill) ∧
    (∀ e, history = [e] → e.action = .plan_skill →
      forced_action history skill voted =
        (if skill = "" then Action.plan_skill else Action.write_skill)) ∧
    (2 ≤ history.length → ∀ last, history.getLast? = some last →
      (last.action = .write_skill → last.result.success = true →
        forced_action history skill voted = .test_skill) ∧
      (¬(last.action = .write_skill ∧ last.result.success = true) →
        last.action = .plan_skill → skill ≠ "" →
        forced_action history skill voted = .write_skill) ∧
      (¬(last.action = .write_skill ∧ last.result.success = true) →
        ¬(last.action = .plan_skill ∧ skill ≠ "") →
        forced_action history skill voted = voted)) := by
  match history with
  | [] =>
    refine ⟨fun _ => rfl, fun e he => ?_, fun hlen => ?_⟩
    · cases he
    · simp at hlen
  | [h] =>
    refine ⟨fun he => ?_, fun e he hac => ?_, fun hlen => ?_⟩
    · cases he
    · have : h = e := by
        cases he
        rfl
      subst this
      simp only [forced_action, if_pos hac]
    · simp at hlen
  | a :: b :: t =>
    refine ⟨fun he => ?_, fun e he hac => ?_, fun hlen last hlast => ?_⟩
    · cases he
    · simp at he
    · have hl : (b :: t).getLastD a = last := by
        rw [List.getLastD_eq_getLast?]
        rw [List.getLast?_cons_cons] at hlast
        rw [hlast]
        rfl
      refine ⟨fun hw hs => ?_, fun hnot hpl hsk => ?_, fun hnot1 hnot2 => ?_⟩
      · simp only [forced_action, hl]
        rw [if_pos ⟨hw, hs⟩]
      · simp only [forced_action, hl]
        rw [if_neg hnot, if_pos ⟨hpl, hsk⟩]
      · simp only [forced_action, hl]
        rw [if_neg hnot1, if_neg hnot2]

/-- C5 witness: with an empty history the forced action is plan_skill even
against a complete vote, and after a one-entry plan_skill history with an
artifact the forced action is write_skill, by `C5_forced_rules`. -/
theorem C5_witness :
    forced_action [] "" .complete = .plan_skill ∧
    forced_action [⟨.plan_skill, ⟨true, some "x"⟩⟩] "x" .complete
      = .write_skill := by
  have h1 := (C5_forced_rules [] "" .complete).1 rfl
  have h2 := (C5_forced_rules [⟨.plan_skill, ⟨true, some "x"⟩⟩] "x"
    .complete).2.1 ⟨.plan_skill, ⟨true, some "x"⟩⟩ rfl rfl
  refine ⟨h1, ?_⟩
  rw [h2]
  decide

end Swarm
